import Mathlib

/-!
Verification of the plan lifecycle engine of the Gemini CLI n8n node
(`nodes/GeminiCli/GeminiCli.node.ts`, plan-enabled revision).

The TypeScript source is shallowly embedded: the persisted plan store is an
association list from file name (the plan id) to the stored record, the
external agent process is an oracle giving the outcome of each spawned
subprocess, and the free-form JSON replies of the agent are values of an
inductive `JsonValue` type.  Each definition mirrors one function of the
source; deviations forced by the embedding are noted next to the definition.
-/

set_option autoImplicit false

namespace GeminiCli

/-- Step status strings of the source (`'pending' | 'in_progress' | 'completed' | 'failed'`). -/
inductive StepStatus where
  | pending
  | in_progress
  | completed
  | failed
deriving DecidableEq

/-- Plan status strings of the source (`'draft' | 'approved' | 'executing' | 'completed' | 'failed'`). -/
inductive PlanStatus where
  | draft
  | approved
  | executing
  | completed
  | failed
deriving DecidableEq

/-- `ToolsConfig.securityMode` values. -/
inductive SecurityMode where
  | safe
  | yolo
  | sandbox
deriving DecidableEq

/-- `interface ToolsConfig` of the source; every field is optional there. -/
structure ToolsConfig where
  enabledTools : Option (List String)
  securityMode : Option SecurityMode
  checkpointing : Option Bool
deriving DecidableEq

/-- The `configuration` snapshot stored inside an `ExecutionPlan`. -/
structure PlanConfiguration where
  model : Option String
  projectPath : Option String
  toolsConfig : Option ToolsConfig
deriving DecidableEq

/-- `interface ExecutionStep` of the source.  `estimated_duration` is a JS
number; the values the node itself writes are integers, embedded as `Int`. -/
structure ExecutionStep where
  id : String
  description : String
  command : Option String
  files : Option (List String)
  estimated_duration : Option Int
  status : Option StepStatus
deriving DecidableEq

/-- `interface ExecutionPlan` of the source; `created_at`/`modified_at` are
epoch-millisecond timestamps (`Date.now()`), embedded as `Nat`. -/
structure ExecutionPlan where
  id : String
  title : String
  description : String
  steps : List ExecutionStep
  created_at : Nat
  modified_at : Nat
  status : PlanStatus
  original_prompt : Option String
  configuration : Option PlanConfiguration
deriving DecidableEq

/-! ## The plan store

`savePlan` writes `<plansDir>/<plan.id>.json` wholesale and `loadPlan` reads
`<plansDir>/<planId>.json`, returning `null` on ENOENT.  The directory is
embedded as an association list from file name (plan id) to stored record;
a save conses a new binding, and lookup sees the newest binding, which is
exactly the overwrite semantics of `fs.writeFile`. -/

/-- Lookup of the newest binding of a key in an association list. -/
def fsFind {α : Type} (fs : List (String × α)) (k : String) : Option α :=
  match fs with
  | [] => none
  | (k', v) :: rest => if k' = k then some v else fsFind rest k

/-- Overwriting write of a binding. -/
def fsSave {α : Type} (fs : List (String × α)) (k : String) (v : α) : List (String × α) :=
  (k, v) :: fs

/-- The on-disk plans directory, holding typed plan records. -/
abbrev PlanFs : Type := List (String × ExecutionPlan)

/-- `GeminiCli.savePlan`: full overwrite of the file named by the plan's own id. -/
def savePlan (plan : ExecutionPlan) (fs : PlanFs) : PlanFs :=
  fsSave fs plan.id plan

/-- `GeminiCli.loadPlan`: read the file named by the requested id; a missing
file (ENOENT) is `none`, not an error. -/
def loadPlan (planId : String) (fs : PlanFs) : Option ExecutionPlan :=
  fsFind fs planId

/-- Errors surfaced by the plan operations that the claims distinguish. -/
inductive OpError where
  | notFound (planId : String)
  | notApproved (status : PlanStatus)
deriving DecidableEq

/-! ## approve_plan

`execute`, `case 'approve_plan'`: load the plan, fail when it does not exist,
otherwise set `status = 'approved'` and `modified_at = Date.now()` and save.
The source performs no check of the prior status. -/

/-- The `approve_plan` branch of `GeminiCli.execute`. -/
def approvePlan (planId : String) (now : Nat) (fs : PlanFs) :
    Except OpError ExecutionPlan × PlanFs :=
  match loadPlan planId fs with
  | none => (Except.error (OpError.notFound planId), fs)
  | some p =>
      let q := { p with status := PlanStatus.approved, modified_at := now }
      (Except.ok q, savePlan q fs)

/-! ## execute_plan

`GeminiCli.executePlan` drives one subprocess per step.  The subprocess layer
is abstracted by an oracle `Nat → StepOutcome` giving the outcome of the
`k`-th `runGeminiCLI` call of this invocation: a resolved response with
`success: true`, a resolved response with `success: false` (non-zero exit
code), or a rejection (spawn failure or timeout, caught by the per-step
`catch`).  Plan-file writes themselves are modelled as always succeeding. -/

/-- Outcome of one `runGeminiCLI` call inside the step loop. -/
inductive StepOutcome where
  | success
  | failure
  | raised
deriving DecidableEq

/-- Result of the step loop of `executePlan`. -/
structure LoopResult where
  steps : List ExecutionStep
  allOk : Bool
  store : PlanFs
  spawns : Nat

/-- The `for (const step of plan.steps)` loop of `executePlan`.  `base` is the
plan object already switched to `executing`; `done` are the steps already
completed, `rest` the ones still ahead, `k` the index of the next subprocess.
Each iteration marks the step `in_progress` and saves, spawns, then either
marks it `completed` and saves (continuing), or marks it `failed` and breaks
without the per-step save — the failed step is persisted by the final save
that the caller performs. -/
def execLoop (base : ExecutionPlan) (oracle : Nat → StepOutcome) :
    List ExecutionStep → List ExecutionStep → Nat → PlanFs → LoopResult
  | [], done, k, st =>
      { steps := done, allOk := true, store := st, spawns := k }
  | s :: rest, done, k, st =>
      let s1 := { s with status := some StepStatus.in_progress }
      let st1 := fsSave st base.id { base with steps := done ++ s1 :: rest }
      match oracle k with
      | StepOutcome.success =>
          let s2 := { s with status := some StepStatus.completed }
          let st2 := fsSave st1 base.id { base with steps := done ++ s2 :: rest }
          execLoop base oracle rest (done ++ [s2]) (k + 1) st2
      | StepOutcome.failure =>
          let s2 := { s with status := some StepStatus.failed }
          { steps := done ++ s2 :: rest, allOk := false, store := st1, spawns := k + 1 }
      | StepOutcome.raised =>
          let s2 := { s with status := some StepStatus.failed }
          { steps := done ++ s2 :: rest, allOk := false, store := st1, spawns := k + 1 }

/-- `GeminiCli.executePlan`: load, reject a missing id, reject a plan whose
status is not exactly `'approved'`, persist the `executing` transition, run
the loop, then persist the final `completed`/`failed` status.  `t1`/`t2` are
the two `Date.now()` reads.  The returned `Nat` counts spawned subprocesses. -/
def executePlan (planId : String) (t1 t2 : Nat) (oracle : Nat → StepOutcome)
    (fs : PlanFs) : Except OpError ExecutionPlan × PlanFs × Nat :=
  match loadPlan planId fs with
  | none => (Except.error (OpError.notFound planId), fs, 0)
  | some plan =>
      if plan.status = PlanStatus.approved then
        let p1 := { plan with status := PlanStatus.executing, modified_at := t1 }
        let st1 := savePlan p1 fs
        let r := execLoop p1 oracle p1.steps [] 0 st1
        let finalPlan := { p1 with
          steps := r.steps,
          status := if r.allOk then PlanStatus.completed else PlanStatus.failed,
          modified_at := t2 }
        (Except.ok finalPlan, savePlan finalPlan r.store, r.spawns)
      else (Except.error (OpError.notApproved plan.status), fs, 0)

/-- Shape demanded of the step statuses after an execution that started from
all-`pending` steps: a prefix of `completed`, then at most one `failed`, then
only `pending`. -/
def allPending : List (Option StepStatus) → Bool
  | [] => true
  | some StepStatus.pending :: rest => allPending rest
  | _ => false

/-- See `allPending`. -/
def goodShape : List (Option StepStatus) → Bool
  | [] => true
  | some StepStatus.completed :: rest => goodShape rest
  | some StepStatus.failed :: rest => allPending rest
  | some StepStatus.pending :: rest => allPending rest
  | _ => false

/-- Number of steps that were attempted (status no longer `pending`). -/
def countAttempted : List ExecutionStep → Nat
  | [] => 0
  | s :: rest =>
      (if s.status = some StepStatus.pending then 0 else 1) + countAttempted rest

/-! ## The JSON layer

`generatePlanWithGemini` and `editPlanWithGemini` run `JSON.parse` on a
substring of the agent's reply and then validate the parsed value.  Parsed
JSON documents are embedded as `JsonValue` (JS numbers restricted to the
integers the node itself manipulates). -/

/-- A parsed JSON document. -/
inductive JsonValue where
  | null
  | bool (b : Bool)
  | num (n : Int)
  | str (s : String)
  | arr (elems : List JsonValue)
  | obj (fields : List (String × JsonValue))

/-- Property access `v.k` on a parsed document: first binding of an object,
`undefined` (here `none`) on every non-object. -/
def jsMember (v : JsonValue) (k : String) : Option JsonValue :=
  match v with
  | JsonValue.obj fields => fsFind fields k
  | _ => none

/-- JS truthiness of a possibly-absent value, as used by `!planData.title`
and `step.id || default`. -/
def jsTruthy : Option JsonValue → Bool
  | none => false
  | some JsonValue.null => false
  | some (JsonValue.bool b) => b
  | some (JsonValue.num n) => n != 0
  | some (JsonValue.str s) => s != ""
  | some (JsonValue.arr _) => true
  | some (JsonValue.obj _) => true

/-- Value of a field that the source reads through an unchecked `as string`
cast.  On the string values the node actually produces this is the identity;
non-string values fall outside the TS type and are collapsed to `""`. -/
def jsAsString : Option JsonValue → String
  | some (JsonValue.str s) => s
  | _ => ""

/-- Optional string field (`step.command as string`): absent stays absent. -/
def jsOptString : Option JsonValue → Option String
  | some (JsonValue.str s) => some s
  | _ => none

/-- `Array.isArray(step.files) ? step.files : undefined`, with the elements
read through the same unchecked string cast. -/
def jsFiles : Option JsonValue → Option (List String)
  | some (JsonValue.arr xs) => some (xs.map (fun v => jsAsString (some v)))
  | _ => none

/-- `typeof step.estimated_duration === 'number' ? it : 300`. -/
def jsDuration : Option JsonValue → Int
  | some (JsonValue.num n) => n
  | _ => 300

/-- One element of the `planData.steps.map((step, index) => ...)` call:
per-field defaults keyed to the 0-based `index`, status forced `'pending'`. -/
def validateStep (idx : Nat) (stepVal : JsonValue) : ExecutionStep :=
  { id :=
      if jsTruthy (jsMember stepVal "id") then jsAsString (jsMember stepVal "id")
      else "step_" ++ toString (idx + 1)
  , description :=
      if jsTruthy (jsMember stepVal "description") then jsAsString (jsMember stepVal "description")
      else "Step " ++ toString (idx + 1)
  , command := jsOptString (jsMember stepVal "command")
  , files := jsFiles (jsMember stepVal "files")
  , estimated_duration := some (jsDuration (jsMember stepVal "estimated_duration"))
  , status := some StepStatus.pending }

/-- The full `map` over the parsed steps array, carrying the index. -/
def validateSteps : Nat → List JsonValue → List ExecutionStep
  | _, [] => []
  | idx, v :: rest => validateStep idx v :: validateSteps (idx + 1) rest

/-- `!planData.title || !planData.description || !Array.isArray(planData.steps)`
negated: the validation gate shared by plan generation and plan editing. -/
def validPlanShape (j : JsonValue) : Bool :=
  jsTruthy (jsMember j "title") && jsTruthy (jsMember j "description") &&
    (match jsMember j "steps" with
     | some (JsonValue.arr _) => true
     | _ => false)

/-- The parsed `steps` array (only read behind `validPlanShape`). -/
def jsStepsArr (j : JsonValue) : List JsonValue :=
  match jsMember j "steps" with
  | some (JsonValue.arr xs) => xs
  | _ => []

/-! ## generate_plan and edit_plan

Both operations feed the agent's reply through JSON extraction and parsing;
downstream of that, they only depend on the parse result, which is the
`parsed : Option JsonValue` parameter below (`none` = no brace-delimited
region was found, or `JSON.parse` threw). -/

/-- Validation and construction part of `GeminiCli.generatePlanWithGemini`
(the plan id and the `Date.now()` timestamp are the values computed at entry). -/
def generatePlanCore (parsed : Option JsonValue) (planId : String) (timestamp : Nat)
    (prompt : String) (config : PlanConfiguration) : Except String ExecutionPlan :=
  match parsed with
  | none => Except.error "Failed to parse plan structure"
  | some j =>
      if validPlanShape j then
        Except.ok
          { id := planId
          , title := jsAsString (jsMember j "title")
          , description := jsAsString (jsMember j "description")
          , steps := validateSteps 0 (jsStepsArr j)
          , created_at := timestamp
          , modified_at := timestamp
          , status := PlanStatus.draft
          , original_prompt := some prompt
          , configuration := some config }
      else Except.error "Invalid plan structure: missing required fields"

/-- `GeminiCli.generatePlanWithGemini`: on success the plan is saved, on any
failure the error is surfaced and the store untouched. -/
def generatePlanWithGemini (parsed : Option JsonValue) (planId : String)
    (timestamp : Nat) (prompt : String) (config : PlanConfiguration) (fs : PlanFs) :
    Except String ExecutionPlan × PlanFs :=
  match generatePlanCore parsed planId timestamp prompt config with
  | Except.ok p => (Except.ok p, savePlan p fs)
  | Except.error e => (Except.error e, fs)

/-- Validation and update part of `GeminiCli.editPlanWithGemini`: the spread
`{ ...existingPlan, title, description, steps, modified_at, status: 'draft' }`. -/
def editPlanCore (existing : ExecutionPlan) (parsed : Option JsonValue) (now : Nat) :
    Except String ExecutionPlan :=
  match parsed with
  | none => Except.error "Failed to parse edited plan structure"
  | some j =>
      if validPlanShape j then
        Except.ok { existing with
          title := jsAsString (jsMember j "title"),
          description := jsAsString (jsMember j "description"),
          steps := validateSteps 0 (jsStepsArr j),
          modified_at := now,
          status := PlanStatus.draft }
      else Except.error "Invalid edited plan structure: missing required fields"

/-- `GeminiCli.editPlanWithGemini`: load the existing plan (missing id is an
error), build the updated plan, save it. -/
def editPlanWithGemini (planId : String) (parsed : Option JsonValue) (now : Nat)
    (fs : PlanFs) : Except String ExecutionPlan × PlanFs :=
  match loadPlan planId fs with
  | none => (Except.error ("Plan with ID " ++ planId ++ " not found"), fs)
  | some existing =>
      match editPlanCore existing parsed now with
      | Except.ok q => (Except.ok q, savePlan q fs)
      | Except.error e => (Except.error e, fs)

/-! ## Plan serialization

`savePlan` writes `JSON.stringify(plan, null, 2)` and `loadPlan` reads the
text back through `JSON.parse`.  The round trip through the text is embedded
as the round trip through the parsed document: `planToJson` is the document
`JSON.parse(JSON.stringify(plan))` denotes (`undefined` fields omitted by
`stringify`), and `planFromJson` reads the fields of such a document back
into the typed record. -/

/-- Serialization of a `StepStatus` literal. -/
def stepStatusToString : StepStatus → String
  | StepStatus.pending => "pending"
  | StepStatus.in_progress => "in_progress"
  | StepStatus.completed => "completed"
  | StepStatus.failed => "failed"

/-- Inverse of `stepStatusToString`. -/
def stepStatusFromString (s : String) : Option StepStatus :=
  if s = "pending" then some StepStatus.pending
  else if s = "in_progress" then some StepStatus.in_progress
  else if s = "completed" then some StepStatus.completed
  else if s = "failed" then some StepStatus.failed
  else none

/-- Serialization of a `PlanStatus` literal. -/
def planStatusToString : PlanStatus → String
  | PlanStatus.draft => "draft"
  | PlanStatus.approved => "approved"
  | PlanStatus.executing => "executing"
  | PlanStatus.completed => "completed"
  | PlanStatus.failed => "failed"

/-- Inverse of `planStatusToString`. -/
def planStatusFromString (s : String) : Option PlanStatus :=
  if s = "draft" then some PlanStatus.draft
  else if s = "approved" then some PlanStatus.approved
  else if s = "executing" then some PlanStatus.executing
  else if s = "completed" then some PlanStatus.completed
  else if s = "failed" then some PlanStatus.failed
  else none

/-- Serialization of a `SecurityMode` literal. -/
def securityModeToString : SecurityMode → String
  | SecurityMode.safe => "safe"
  | SecurityMode.yolo => "yolo"
  | SecurityMode.sandbox => "sandbox"

/-- Inverse of `securityModeToString`. -/
def securityModeFromString (s : String) : Option SecurityMode :=
  if s = "safe" then some SecurityMode.safe
  else if s = "yolo" then some SecurityMode.yolo
  else if s = "sandbox" then some SecurityMode.sandbox
  else none

/-- A field that `JSON.stringify` omits when the value is `undefined`. -/
def optField (k : String) : Option JsonValue → List (String × JsonValue)
  | none => []
  | some v => [(k, v)]

/-- Document written for one `ExecutionStep`. -/
def stepToJson (s : ExecutionStep) : JsonValue :=
  JsonValue.obj
    ([("id", JsonValue.str s.id), ("description", JsonValue.str s.description)]
      ++ optField "command" (s.command.map JsonValue.str)
      ++ optField "files" (s.files.map (fun l => JsonValue.arr (l.map JsonValue.str)))
      ++ optField "estimated_duration" (s.estimated_duration.map JsonValue.num)
      ++ optField "status" (s.status.map (fun st => JsonValue.str (stepStatusToString st))))

/-- Required string field of a stored document. -/
def decodeString : Option JsonValue → Option String
  | some (JsonValue.str s) => some s
  | _ => none

/-- Optional string field of a stored document. -/
def decodeOptString : Option JsonValue → Option (Option String)
  | none => some none
  | some (JsonValue.str s) => some (some s)
  | _ => none

/-- String elements of a stored array. -/
def decodeStringList : List JsonValue → Option (List String)
  | [] => some []
  | JsonValue.str s :: rest => (decodeStringList rest).map (fun l => s :: l)
  | _ => none

/-- Reading one step back from its stored document. -/
def stepFromJson : JsonValue → Option ExecutionStep
  | JsonValue.obj f => do
      let id ← decodeString (fsFind f "id")
      let description ← decodeString (fsFind f "description")
      let command ← decodeOptString (fsFind f "command")
      let files ←
        match fsFind f "files" with
        | none => some none
        | some (JsonValue.arr xs) => (decodeStringList xs).map some
        | _ => none
      let dur ←
        match fsFind f "estimated_duration" with
        | none => some none
        | some (JsonValue.num n) => some (some n)
        | _ => none
      let status ←
        match fsFind f "status" with
        | none => some none
        | some (JsonValue.str s) => (stepStatusFromString s).map some
        | _ => none
      some { id := id, description := description, command := command,
             files := files, estimated_duration := dur, status := status }
  | _ => none

/-- Reading the steps array back. -/
def stepsFromJson : List JsonValue → Option (List ExecutionStep)
  | [] => some []
  | v :: rest =>
      match stepFromJson v, stepsFromJson rest with
      | some s, some l => some (s :: l)
      | _, _ => none

/-- Document written for the `toolsConfig` snapshot. -/
def toolsConfigToJson (tc : ToolsConfig) : JsonValue :=
  JsonValue.obj
    (optField "enabledTools" (tc.enabledTools.map (fun l => JsonValue.arr (l.map JsonValue.str)))
      ++ optField "securityMode" (tc.securityMode.map (fun m => JsonValue.str (securityModeToString m)))
      ++ optField "checkpointing" (tc.checkpointing.map JsonValue.bool))

/-- Reading the `toolsConfig` snapshot back. -/
def toolsConfigFromJson : JsonValue → Option ToolsConfig
  | JsonValue.obj f => do
      let enabledTools ←
        match fsFind f "enabledTools" with
        | none => some none
        | some (JsonValue.arr xs) => (decodeStringList xs).map some
        | _ => none
      let securityMode ←
        match fsFind f "securityMode" with
        | none => some none
        | some (JsonValue.str s) => (securityModeFromString s).map some
        | _ => none
      let checkpointing ←
        match fsFind f "checkpointing" with
        | none => some none
        | some (JsonValue.bool b) => some (some b)
        | _ => none
      some { enabledTools := enabledTools, securityMode := securityMode,
             checkpointing := checkpointing }
  | _ => none

/-- Document written for the `configuration` snapshot. -/
def configurationToJson (c : PlanConfiguration) : JsonValue :=
  JsonValue.obj
    (optField "model" (c.model.map JsonValue.str)
      ++ optField "projectPath" (c.projectPath.map JsonValue.str)
      ++ optField "toolsConfig" (c.toolsConfig.map toolsConfigToJson))

/-- Reading the `configuration` snapshot back. -/
def configurationFromJson : JsonValue → Option PlanConfiguration
  | JsonValue.obj f => do
      let model ← decodeOptString (fsFind f "model")
      let projectPath ← decodeOptString (fsFind f "projectPath")
      let toolsConfig ←
        match fsFind f "toolsConfig" with
        | none => some none
        | some v => (toolsConfigFromJson v).map some
      some { model := model, projectPath := projectPath, toolsConfig := toolsConfig }
  | _ => none

/-- Document `savePlan` writes for a whole plan. -/
def planToJson (p : ExecutionPlan) : JsonValue :=
  JsonValue.obj
    ([("id", JsonValue.str p.id), ("title", JsonValue.str p.title),
      ("description", JsonValue.str p.description),
      ("steps", JsonValue.arr (p.steps.map stepToJson)),
      ("created_at", JsonValue.num (Int.ofNat p.created_at)),
      ("modified_at", JsonValue.num (Int.ofNat p.modified_at)),
      ("status", JsonValue.str (planStatusToString p.status))]
      ++ optField "original_prompt" (p.original_prompt.map JsonValue.str)
      ++ optField "configuration" (p.configuration.map configurationToJson))

/-- Reading a whole plan back from its stored document. -/
def planFromJson : JsonValue → Option ExecutionPlan
  | JsonValue.obj f => do
      let id ← decodeString (fsFind f "id")
      let title ← decodeString (fsFind f "title")
      let description ← decodeString (fsFind f "description")
      let steps ←
        match fsFind f "steps" with
        | some (JsonValue.arr xs) => stepsFromJson xs
        | _ => none
      let created_at ←
        match fsFind f "created_at" with
        | some (JsonValue.num n) => some n.toNat
        | _ => none
      let modified_at ←
        match fsFind f "modified_at" with
        | some (JsonValue.num n) => some n.toNat
        | _ => none
      let status ←
        match fsFind f "status" with
        | some (JsonValue.str s) => planStatusFromString s
        | _ => none
      let original_prompt ← decodeOptString (fsFind f "original_prompt")
      let configuration ←
        match fsFind f "configuration" with
        | none => some none
        | some v => (configurationFromJson v).map some
      some { id := id, title := title, description := description, steps := steps,
             created_at := created_at, modified_at := modified_at, status := status,
             original_prompt := original_prompt, configuration := configuration }
  | _ => none

/-- The plans directory at the JSON level: file name to stored document. -/
abbrev JsonFs : Type := List (String × JsonValue)

/-- `savePlan` seen at the JSON level. -/
def savePlanJson (p : ExecutionPlan) (fs : JsonFs) : JsonFs :=
  fsSave fs p.id (planToJson p)

/-- `loadPlan` seen at the JSON level: ENOENT is the normal `none` result,
a file that does not decode to a plan is the distinct hard error. -/
def loadPlanJson (planId : String) (fs : JsonFs) : Except String (Option ExecutionPlan) :=
  match fsFind fs planId with
  | none => Except.ok none
  | some j =>
      match planFromJson j with
      | some p => Except.ok (some p)
      | none => Except.error "Failed to load plan"

/-! ## JSON extraction from the reply text

Both plan generation and plan editing locate the substring handed to
`JSON.parse` with `response.result.match(/\x7b[\s\S]*\x7d/)`: the first
match of a greedy pattern, which spans from the first left brace of the
reply to the last right brace, provided some right brace follows the first
left brace.  Reply texts are embedded as `List Char`. -/

/-- The left brace character. -/
def lbrace : Char := Char.ofNat 123

/-- The right brace character. -/
def rbrace : Char := Char.ofNat 125

/-- Drop everything strictly before the first left brace. -/
def dropUntilBrace : List Char → List Char
  | [] => []
  | c :: cs => if c = lbrace then c :: cs else dropUntilBrace cs

/-- Keep everything up to and including the last right brace; `none` when no
right brace occurs. -/
def takeThroughLastRBrace (s : List Char) : Option (List Char) :=
  match s.reverse.dropWhile (fun c => c ≠ rbrace) with
  | [] => none
  | r => some r.reverse

/-- The substring the source hands to `JSON.parse`. -/
def extractJson (s : List Char) : Option (List Char) :=
  takeThroughLastRBrace (dropUntilBrace s)

/-- Modelled from the spec: "extract the first brace-delimited JSON object
found in the reply text" — the region from the first left brace to its
matching right brace, tracking nesting depth.  This is the comparison point
for the extraction the source actually performs. -/
def balancedScan : Nat → List Char → List Char → Option (List Char)
  | _, _, [] => none
  | depth, acc, c :: cs =>
      if c = lbrace then balancedScan (depth + 1) (c :: acc) cs
      else if c = rbrace then
        if depth = 1 then some (c :: acc).reverse
        else balancedScan (depth - 1) (c :: acc) cs
      else balancedScan depth (c :: acc) cs

/-- Modelled from the spec: see `balancedScan`. -/
def firstBraceDelimited (s : List Char) : Option (List Char) :=
  match dropUntilBrace s with
  | [] => none
  | c :: cs => balancedScan 1 [c] cs

/-! ## The ephemeral configuration directory

`createGeminiConfig` writes `<workingDirectory>/.gemini/settings.json` and
`cleanupGeminiConfig` removes the whole `<workingDirectory>/.gemini` tree
with `fs.rm(configDir, { recursive: true, force: true })`.  The plans of the
same working directory live in `<workingDirectory>/.gemini/plans`.  The file
system is embedded as a list of file paths, a path being its list of
segments (`path.join` is segment concatenation). -/

/-- A file path, as its segments. -/
abbrev FilePath' : Type := List String

/-- `path.join(workingDirectory, '.gemini')`. -/
def configDirOf (wd : FilePath') : FilePath' := wd ++ [".gemini"]

/-- `path.join(configDir, 'settings.json')`. -/
def settingsPathOf (wd : FilePath') : FilePath' := wd ++ [".gemini", "settings.json"]

/-- `path.join(workingDirectory, '.gemini', 'plans', planId + '.json')`. -/
def planPathOf (wd : FilePath') (planId : String) : FilePath' :=
  wd ++ [".gemini", "plans", planId ++ ".json"]

/-- `fs.rm(dir, { recursive: true, force: true })`: every path at or below
`dir` disappears. -/
def rmRecursive (dir : FilePath') (fs : List FilePath') : List FilePath' :=
  fs.filter (fun p => !(dir.isPrefixOf p))

/-- File-system effect of `GeminiCli.createGeminiConfig`. -/
def createGeminiConfig (wd : FilePath') (fs : List FilePath') : List FilePath' :=
  settingsPathOf wd :: fs

/-- File-system effect of `GeminiCli.cleanupGeminiConfig`. -/
def cleanupGeminiConfig (wd : FilePath') (fs : List FilePath') : List FilePath' :=
  rmRecursive (configDirOf wd) fs

/-- How one `runGeminiCLI` call ends: normal close (any exit code), failure
to spawn, or expiry of the wall-clock timeout. -/
inductive RunOutcome where
  | exited (code : Int)
  | spawnFailed
  | timedOut

/-- File-system effect of one `runGeminiCLI` call: when the MCP server list
is non-empty the config directory is materialized before the spawn, and on
every exit path — `close` handler, `error` handler, timeout handler — the
cleanup removes the whole config directory. -/
def runGeminiCLIFsEffect (mcpServerNames : List String) (wd : FilePath')
    (outcome : RunOutcome) (fs : List FilePath') : List FilePath' :=
  if mcpServerNames.length > 0 then
    let fs1 := createGeminiConfig wd fs
    match outcome with
    | RunOutcome.exited _ => cleanupGeminiConfig wd fs1
    | RunOutcome.spawnFailed => cleanupGeminiConfig wd fs1
    | RunOutcome.timedOut => cleanupGeminiConfig wd fs1
  else fs

/-! ## The argument vector

`runGeminiCLI` builds the agent's argument vector from the shared options
record; the `query`/`continue` cases of `execute` call it directly with the
caller's prompt and the options assembled from the node parameters
(`operationOptions`), including the tools configuration. -/

/-- The slice of the options record that determines the argument vector. -/
structure RunOptions where
  model : Option String
  toolsConfig : Option ToolsConfig
  debug : Bool
  systemPrompt : Option String
deriving DecidableEq

/-- The system-prompt prefixing of the instruction (`options.systemPrompt`
is truthiness-checked, so an empty string adds no prefix). -/
def finalPromptOf (opts : RunOptions) (prompt : String) : String :=
  match opts.systemPrompt with
  | some sp => if sp = "" then prompt else sp ++ "\n\n" ++ prompt
  | none => prompt

/-- `options.toolsConfig?.securityMode`. -/
def securityModeOf (opts : RunOptions) : Option SecurityMode :=
  match opts.toolsConfig with
  | some tc => tc.securityMode
  | none => none

/-- `options.toolsConfig?.checkpointing`. -/
def checkpointingOf (opts : RunOptions) : Option Bool :=
  match opts.toolsConfig with
  | some tc => tc.checkpointing
  | none => none

/-- The argument groups before the prompt: model selector, security mode
(`safe` adds nothing), checkpointing, debug. -/
def preArgs (opts : RunOptions) : List String :=
  (match opts.model with
   | some m => ["--model", m]
   | none => [])
  ++ (match (match opts.toolsConfig with
             | some tc => tc.securityMode
             | none => none) with
      | some SecurityMode.yolo => ["--yolo"]
      | some SecurityMode.sandbox => ["--sandbox"]
      | _ => [])
  ++ (match (match opts.toolsConfig with
             | some tc => tc.checkpointing
             | none => none) with
      | some true => ["-c"]
      | _ => [])
  ++ (if opts.debug then ["--debug"] else [])

/-- The full argument vector `spawn('gemini', args)` receives. -/
def buildArgs (opts : RunOptions) (prompt : String) : List String :=
  preArgs opts ++ ["-p", finalPromptOf opts prompt]

/-- The `case 'query'`/`case 'continue'` branches of `execute` pass the
caller's prompt and the shared `operationOptions` straight to `runGeminiCLI`,
so a plain query's argument vector is `buildArgs` of those options. -/
def queryArgs (opts : RunOptions) (prompt : String) : List String :=
  buildArgs opts prompt

/-! ## Concrete sample values used by the witnesses and counterexamples -/

/-- A freshly generated pending step. -/
def sampleStep : ExecutionStep :=
  { id := "step_1", description := "add server-side checks", command := none,
    files := none, estimated_duration := some 300, status := some StepStatus.pending }

/-- An approved one-step plan stored under its own id. -/
def samplePlan : ExecutionPlan :=
  { id := "p1", title := "Add validation", description := "validate the form",
    steps := [sampleStep], created_at := 10, modified_at := 11,
    status := PlanStatus.approved, original_prompt := some "add validation",
    configuration := none }

/-- The same plan still in `draft`. -/
def draftPlan : ExecutionPlan :=
  { samplePlan with status := PlanStatus.draft }

/-- The same plan already `completed`. -/
def completedPlan : ExecutionPlan :=
  { samplePlan with status := PlanStatus.completed }

/-- What the `approve_plan` branch turns `completedPlan` into at time 9. -/
def completedPlanApproved : ExecutionPlan :=
  { completedPlan with status := PlanStatus.approved, modified_at := 9 }

/-- Second and third pending steps for the three-step example. -/
def sampleStep2 : ExecutionStep :=
  { sampleStep with id := "step_2", description := "wire up the endpoint" }

/-- See `sampleStep2`. -/
def sampleStep3 : ExecutionStep :=
  { sampleStep with id := "step_3", description := "add tests" }

/-- An approved three-step plan. -/
def samplePlan3 : ExecutionPlan :=
  { samplePlan with id := "p3", steps := [sampleStep, sampleStep2, sampleStep3] }

/-- Oracle of the spec's execution example: the second subprocess exits
non-zero, the others succeed. -/
def oracle3 : Nat → StepOutcome
  | 1 => StepOutcome.failure
  | _ => StepOutcome.success

/-- The stored plan `executePlan "p3" 1 2 oracle3` ends with. -/
def samplePlan3Final : ExecutionPlan :=
  { samplePlan3 with
    steps := [{ sampleStep with status := some StepStatus.completed },
              { sampleStep2 with status := some StepStatus.failed },
              sampleStep3],
    status := PlanStatus.failed, modified_at := 2 }

/-- The prompt of the spec's generation example. -/
def examplePrompt : String := "Add input validation to the signup form"

/-- The parsed document of the spec's mocked agent reply: a title, a
description, and one step carrying only a description. -/
def exampleReply : JsonValue :=
  JsonValue.obj
    [("title", JsonValue.str "Add validation"),
     ("description", JsonValue.str "..."),
     ("steps", JsonValue.arr [JsonValue.obj [("description", JsonValue.str "Add server-side checks")]])]

/-- A configuration snapshot. -/
def sampleConfig : PlanConfiguration :=
  { model := some "gemini-2.5-pro", projectPath := some "/proj",
    toolsConfig := some { enabledTools := some ["web_fetch"],
                          securityMode := some SecurityMode.safe,
                          checkpointing := some false } }

/-- The plan the spec's generation example is expected to store. -/
def examplePlan : ExecutionPlan :=
  { id := "plan_1", title := "Add validation", description := "...",
    steps := [{ id := "step_1", description := "Add server-side checks",
                command := none, files := none, estimated_duration := some 300,
                status := some StepStatus.pending }],
    created_at := 0, modified_at := 0, status := PlanStatus.draft,
    original_prompt := some examplePrompt, configuration := some sampleConfig }

/-- A step carrying every optional field. -/
def richStep : ExecutionStep :=
  { id := "step_1", description := "add server-side checks",
    command := some "npm test", files := some ["a.ts", "b.ts"],
    estimated_duration := some 120, status := some StepStatus.completed }

/-- A plan carrying every optional field, for the edit and round-trip
witnesses. -/
def richPlan : ExecutionPlan :=
  { id := "p9", title := "old title", description := "old description",
    steps := [richStep],
    created_at := 100, modified_at := 200, status := PlanStatus.completed,
    original_prompt := some "the original prompt",
    configuration := some sampleConfig }

/-- A reply text with prose after the object that itself contains a right
brace: `x`, then the object, then `y` and a stray right brace. -/
def greedyReply : List Char := ['x', lbrace, 'a', rbrace, 'y', rbrace]

/-- Options with auto-approve security mode and checkpointing requested. -/
def yoloOpts : RunOptions :=
  { model := none,
    toolsConfig := some { enabledTools := none,
                          securityMode := some SecurityMode.yolo,
                          checkpointing := some true },
    debug := false, systemPrompt := none }

/-- Options with nothing configured at all. -/
def plainOpts : RunOptions :=
  { model := none, toolsConfig := none, debug := false, systemPrompt := none }

/-! ## Helper lemmas -/

theorem fsFind_fsSave_self {α : Type} (fs : List (String × α)) (k : String) (v : α) :
    fsFind (fsSave fs k v) k = some v := by
  simp [fsFind, fsSave]

theorem goodShape_append_completed (l1 l2 : List (Option StepStatus))
    (h : ∀ x ∈ l1, x = some StepStatus.completed) :
    goodShape (l1 ++ l2) = goodShape l2 := by
  induction l1 with
  | nil => rfl
  | cons a as ih =>
      have ha : a = some StepStatus.completed := h a (by simp)
      subst ha
      simpa [goodShape] using ih (fun x hx => h x (by simp [hx]))

theorem allPending_of_forall (l : List (Option StepStatus))
    (h : ∀ x ∈ l, x = some StepStatus.pending) : allPending l = true := by
  induction l with
  | nil => rfl
  | cons a as ih =>
      have ha : a = some StepStatus.pending := h a (by simp)
      subst ha
      simpa [allPending] using ih (fun x hx => h x (by simp [hx]))

theorem countAttempted_append (l1 l2 : List ExecutionStep) :
    countAttempted (l1 ++ l2) = countAttempted l1 + countAttempted l2 := by
  induction l1 with
  | nil => simp [countAttempted]
  | cons a as ih => simp [countAttempted, ih]; omega

theorem countAttempted_all_completed (l : List ExecutionStep)
    (h : ∀ s ∈ l, s.status = some StepStatus.completed) :
    countAttempted l = l.length := by
  induction l with
  | nil => rfl
  | cons a as ih =>
      have ha := h a (by simp)
      simp [countAttempted, ha, ih (fun s hs => h s (by simp [hs]))]
      omega

theorem countAttempted_all_pending (l : List ExecutionStep)
    (h : ∀ s ∈ l, s.status = some StepStatus.pending) :
    countAttempted l = 0 := by
  induction l with
  | nil => rfl
  | cons a as ih =>
      have ha := h a (by simp)
      simp [countAttempted, ha, ih (fun s hs => h s (by simp [hs]))]

theorem execLoop_allOk (base : ExecutionPlan) (oracle : Nat → StepOutcome)
    (rest : List ExecutionStep) :
    ∀ (done : List ExecutionStep) (k : Nat) (st : PlanFs),
      ((execLoop base oracle rest done k st).allOk = true ↔
        ∀ i, i < rest.length → oracle (k + i) = StepOutcome.success) := by
  induction rest with
  | nil => intro done k st; simp [execLoop]
  | cons s rest ih =>
      intro done k st
      cases h : oracle k with
      | success =>
          simp only [execLoop, h]
          rw [ih]
          constructor
          · intro hall i hi
            cases i with
            | zero => simpa using h
            | succ j =>
                have hj := hall j (by simpa using Nat.lt_of_succ_lt_succ hi)
                have : k + 1 + j = k + (j + 1) := by omega
                rwa [this] at hj
          · intro hall i hi
            have hj := hall (i + 1) (by simpa using Nat.succ_lt_succ hi)
            have : k + (i + 1) = k + 1 + i := by omega
            rwa [this] at hj
      | failure =>
          simp only [execLoop, h]
          constructor
          · intro hcontra; cases hcontra
          · intro hall
            have h0 := hall 0 (by simp)
            rw [Nat.add_zero, h] at h0
            exact StepOutcome.noConfusion h0
      | raised =>
          simp only [execLoop, h]
          constructor
          · intro hcontra; cases hcontra
          · intro hall
            have h0 := hall 0 (by simp)
            rw [Nat.add_zero, h] at h0
            exact StepOutcome.noConfusion h0

theorem execLoop_shape (base : ExecutionPlan) (oracle : Nat → StepOutcome)
    (rest : List ExecutionStep) :
    ∀ (done : List ExecutionStep) (st : PlanFs),
      (∀ s ∈ rest, s.status = some StepStatus.pending) →
      (∀ s ∈ done, s.status = some StepStatus.completed) →
      (execLoop base oracle rest done done.length st).steps.length
          = done.length + rest.length ∧
      goodShape ((execLoop base oracle rest done done.length st).steps.map
          (fun s => s.status)) = true ∧
      (execLoop base oracle rest done done.length st).spawns
          = countAttempted (execLoop base oracle rest done done.length st).steps := by
  induction rest with
  | nil =>
      intro done st _ hdone
      refine ⟨by simp [execLoop], ?_, ?_⟩
      · have : goodShape (done.map (fun s => s.status) ++ []) = goodShape [] :=
          goodShape_append_completed _ _ (by
            intro x hx
            obtain ⟨s, hs, rfl⟩ := List.mem_map.mp (by simpa using hx)
            exact hdone s hs)
        simpa [execLoop, goodShape] using this
      · simp [execLoop, countAttempted_all_completed done hdone]
  | cons s rest ih =>
      intro done st hpend hdone
      have hs : s.status = some StepStatus.pending := hpend s (by simp)
      have hrest : ∀ x ∈ rest, x.status = some StepStatus.pending :=
        fun x hx => hpend x (by simp [hx])
      cases h : oracle done.length with
      | success =>
          have hdone2 : ∀ x ∈ done ++ [{ s with status := some StepStatus.completed }],
              x.status = some StepStatus.completed := by
            intro x hx
            rcases List.mem_append.mp hx with hx | hx
            · exact hdone x hx
            · simp only [List.mem_singleton] at hx; subst hx; rfl
          have hlen : done.length + 1
              = (done ++ [{ s with status := some StepStatus.completed }]).length := by
            simp
          have := ih (done ++ [{ s with status := some StepStatus.completed }])
            (fsSave (fsSave st base.id { base with steps := done ++ { s with status := some StepStatus.in_progress } :: rest })
              base.id { base with steps := done ++ { s with status := some StepStatus.completed } :: rest })
            hrest hdone2
          simp only [execLoop, h, hlen]
          refine ⟨?_, this.2.1, this.2.2⟩
          · rw [this.1]; simp; omega
      | failure =>
          simp only [execLoop, h]
          refine ⟨by simp, ?_, ?_⟩
          · rw [List.map_append,
              goodShape_append_completed _ _ (by
                intro x hx
                obtain ⟨s', hs', rfl⟩ := List.mem_map.mp hx
                exact hdone s' hs')]
            simpa [goodShape] using allPending_of_forall _ (by
              intro x hx
              obtain ⟨s', hs', rfl⟩ := List.mem_map.mp hx
              exact hrest s' hs')
          · rw [countAttempted_append, countAttempted_all_completed done hdone]
            simp [countAttempted, countAttempted_all_pending rest hrest]
      | raised =>
          simp only [execLoop, h]
          refine ⟨by simp, ?_, ?_⟩
          · rw [List.map_append,
              goodShape_append_completed _ _ (by
                intro x hx
                obtain ⟨s', hs', rfl⟩ := List.mem_map.mp hx
                exact hdone s' hs')]
            simpa [goodShape] using allPending_of_forall _ (by
              intro x hx
              obtain ⟨s', hs', rfl⟩ := List.mem_map.mp hx
              exact hrest s' hs')
          · rw [countAttempted_append, countAttempted_all_completed done hdone]
            simp [countAttempted, countAttempted_all_pending rest hrest]

theorem executePlan_eq_of_approved (planId : String) (t1 t2 : Nat)
    (oracle : Nat → StepOutcome) (fs : PlanFs) (plan : ExecutionPlan)
    (hfind : loadPlan planId fs = some plan)
    (happ : plan.status = PlanStatus.approved) :
    executePlan planId t1 t2 oracle fs =
      (Except.ok
        { plan with
          steps := (execLoop { plan with status := PlanStatus.executing, modified_at := t1 }
            oracle plan.steps [] 0
            (savePlan { plan with status := PlanStatus.executing, modified_at := t1 } fs)).steps,
          status := if (execLoop { plan with status := PlanStatus.executing, modified_at := t1 }
            oracle plan.steps [] 0
            (savePlan { plan with status := PlanStatus.executing, modified_at := t1 } fs)).allOk
            then PlanStatus.completed else PlanStatus.failed,
          modified_at := t2 },
       savePlan
        { plan with
          steps := (execLoop { plan with status := PlanStatus.executing, modified_at := t1 }
            oracle plan.steps [] 0
            (savePlan { plan with status := PlanStatus.executing, modified_at := t1 } fs)).steps,
          status := if (execLoop { plan with status := PlanStatus.executing, modified_at := t1 }
            oracle plan.steps [] 0
            (savePlan { plan with status := PlanStatus.executing, modified_at := t1 } fs)).allOk
            then PlanStatus.completed else PlanStatus.failed,
          modified_at := t2 }
        (execLoop { plan with status := PlanStatus.executing, modified_at := t1 }
          oracle plan.steps [] 0
          (savePlan { plan with status := PlanStatus.executing, modified_at := t1 } fs)).store,
       (execLoop { plan with status := PlanStatus.executing, modified_at := t1 }
         oracle plan.steps [] 0
         (savePlan { plan with status := PlanStatus.executing, modified_at := t1 } fs)).spawns) := by
  simp [executePlan, hfind, happ]

/-! ## The claims -/

/-- Claim C1, counterexample.  The claim says `approve_plan` succeeds only
when the stored plan's prior status is exactly `draft` and that a non-draft
plan is rejected without mutating the stored file.  The source's
`approve_plan` branch never inspects the prior status: approving the stored
plan `completedPlan`, whose status is `completed`, succeeds and overwrites
the stored file with an `approved` copy. -/
theorem approve_plan_nondraft_counterexample :
    completedPlan.status = PlanStatus.completed ∧
    (approvePlan "p1" 9 [("p1", completedPlan)]).1 = Except.ok completedPlanApproved ∧
    fsFind (approvePlan "p1" 9 [("p1", completedPlan)]).2 "p1" = some completedPlanApproved ∧
    completedPlanApproved ≠ completedPlan := by
  refine ⟨rfl, rfl, rfl, ?_⟩
  intro hcontra
  have := congrArg ExecutionPlan.status hcontra
  simp [completedPlanApproved, completedPlan] at this

/-- Claim C1, amended.  `approve_plan` succeeds for every stored plan
regardless of its prior status — draft, approved, executing, completed or
failed — setting the status to `approved` and `modified_at` to the current
time and overwriting the stored file; only a missing plan id is rejected
(with a not-found error), and only that case leaves the store unmutated. -/
theorem approve_plan_approves_any_existing (planId : String) (now : Nat) (fs : PlanFs) :
    (loadPlan planId fs = none →
      approvePlan planId now fs = (Except.error (OpError.notFound planId), fs)) ∧
    (∀ p, loadPlan planId fs = some p →
      approvePlan planId now fs =
        (Except.ok { p with status := PlanStatus.approved, modified_at := now },
         savePlan { p with status := PlanStatus.approved, modified_at := now } fs) ∧
      loadPlan p.id (approvePlan planId now fs).2 =
        some { p with status := PlanStatus.approved, modified_at := now }) := by
  constructor
  · intro h; simp [approvePlan, h]
  · intro p h
    constructor
    · simp [approvePlan, h]
    · simp only [approvePlan, h]
      exact fsFind_fsSave_self fs p.id _

/-- Witness for the amended claim C1 at the stored `completed` plan. -/
theorem approve_plan_approves_any_existing_witness :
    loadPlan "p1" [("p1", completedPlan)] = some completedPlan ∧
    approvePlan "p1" 9 [("p1", completedPlan)] =
      (Except.ok completedPlanApproved, savePlan completedPlanApproved [("p1", completedPlan)]) := by
  refine ⟨rfl, ?_⟩
  exact ((approve_plan_approves_any_existing "p1" 9 [("p1", completedPlan)]).2
    completedPlan rfl).1

/-- Claim C5.  `execute_plan` on a stored plan whose status is not exactly
`approved` fails with a status error, before any subprocess is spawned (the
spawn count of the result is `0`) and with the store untouched; a missing
plan id fails with the distinct not-found error, likewise with no spawn and
no mutation. -/
theorem execute_plan_rejects_unapproved (planId : String) (t1 t2 : Nat)
    (oracle : Nat → StepOutcome) (fs : PlanFs) :
    (loadPlan planId fs = none →
      executePlan planId t1 t2 oracle fs = (Except.error (OpError.notFound planId), fs, 0)) ∧
    (∀ plan, loadPlan planId fs = some plan → plan.status ≠ PlanStatus.approved →
      executePlan planId t1 t2 oracle fs =
        (Except.error (OpError.notApproved plan.status), fs, 0) ∧
      OpError.notApproved plan.status ≠ OpError.notFound planId) := by
  constructor
  · intro h; simp [executePlan, h]
  · intro plan h hst
    refine ⟨by simp [executePlan, h, hst], ?_⟩
    intro hcontra
    exact OpError.noConfusion hcontra

/-- Witness for claim C5: executing the stored draft plan is rejected with
the store unchanged and zero subprocesses, and a missing id gives not-found. -/
theorem execute_plan_rejects_unapproved_witness :
    loadPlan "p1" [("p1", draftPlan)] = some draftPlan ∧
    draftPlan.status ≠ PlanStatus.approved ∧
    executePlan "p1" 1 2 (fun _ => StepOutcome.success) [("p1", draftPlan)] =
      (Except.error (OpError.notApproved PlanStatus.draft), [("p1", draftPlan)], 0) ∧
    executePlan "missing" 1 2 (fun _ => StepOutcome.success) [("p1", draftPlan)] =
      (Except.error (OpError.notFound "missing"), [("p1", draftPlan)], 0) := by
  have h := execute_plan_rejects_unapproved "p1" 1 2 (fun _ => StepOutcome.success)
    [("p1", draftPlan)]
  have h2 := (h.2 draftPlan rfl (by decide)).1
  have hmissing := (execute_plan_rejects_unapproved "missing" 1 2
    (fun _ => StepOutcome.success) [("p1", draftPlan)]).1 (by decide)
  exact ⟨rfl, by decide, h2, hmissing⟩

/-- Claim C3.  Once `execute_plan` starts on an `approved` stored plan, the
plan it returns and persists has status `completed` or `failed` — never
`executing` — and it is `completed` exactly when every step's subprocess
succeeded. -/
theorem execute_plan_terminal_status (planId : String) (t1 t2 : Nat)
    (oracle : Nat → StepOutcome) (fs : PlanFs) (plan : ExecutionPlan)
    (hfind : loadPlan planId fs = some plan) (hid : plan.id = planId)
    (happ : plan.status = PlanStatus.approved) :
    ∃ q, (executePlan planId t1 t2 oracle fs).1 = Except.ok q ∧
      loadPlan planId (executePlan planId t1 t2 oracle fs).2.1 = some q ∧
      q.status ≠ PlanStatus.executing ∧
      (q.status = PlanStatus.completed ∨ q.status = PlanStatus.failed) ∧
      (q.status = PlanStatus.completed ↔
        ∀ i, i < plan.steps.length → oracle i = StepOutcome.success) := by
  rw [executePlan_eq_of_approved planId t1 t2 oracle fs plan hfind happ]
  have hiff := execLoop_allOk { plan with status := PlanStatus.executing, modified_at := t1 }
    oracle plan.steps []
    0 (savePlan { plan with status := PlanStatus.executing, modified_at := t1 } fs)
  simp only [Nat.zero_add] at hiff
  refine ⟨_, rfl, ?_, ?_, ?_, ?_⟩
  · simp only [savePlan, loadPlan]
    rw [show ({ plan with
        steps := (execLoop { plan with status := PlanStatus.executing, modified_at := t1 }
          oracle plan.steps [] 0
          (savePlan { plan with status := PlanStatus.executing, modified_at := t1 } fs)).steps,
        status := if (execLoop { plan with status := PlanStatus.executing, modified_at := t1 }
          oracle plan.steps [] 0
          (savePlan { plan with status := PlanStatus.executing, modified_at := t1 } fs)).allOk
          then PlanStatus.completed else PlanStatus.failed,
        modified_at := t2 } : ExecutionPlan).id = planId from hid]
    exact fsFind_fsSave_self _ planId _
  · cases hall : (execLoop { plan with status := PlanStatus.executing, modified_at := t1 }
      oracle plan.steps [] 0
      (savePlan { plan with status := PlanStatus.executing, modified_at := t1 } fs)).allOk <;>
      simp [hall]
  · cases hall : (execLoop { plan with status := PlanStatus.executing, modified_at := t1 }
      oracle plan.steps [] 0
      (savePlan { plan with status := PlanStatus.executing, modified_at := t1 } fs)).allOk <;>
      simp [hall]
  · cases hall : (execLoop { plan with status := PlanStatus.executing, modified_at := t1 }
      oracle plan.steps [] 0
      (savePlan { plan with status := PlanStatus.executing, modified_at := t1 } fs)).allOk
    · rw [hall] at hiff
      simp only [hall]
      exact iff_of_false (by simp) (fun hr => absurd (hiff.mpr hr) (by simp))
    · rw [hall] at hiff
      simp only [hall]
      exact iff_of_true (by simp) (hiff.mp rfl)

/-- Witness for claim C3: executing the approved one-step plan with an
all-success oracle. -/
theorem execute_plan_terminal_status_witness :
    loadPlan "p1" [("p1", samplePlan)] = some samplePlan ∧
    samplePlan.id = "p1" ∧ samplePlan.status = PlanStatus.approved ∧
    (∃ q, (executePlan "p1" 1 2 (fun _ => StepOutcome.success) [("p1", samplePlan)]).1
        = Except.ok q ∧
      loadPlan "p1"
        (executePlan "p1" 1 2 (fun _ => StepOutcome.success) [("p1", samplePlan)]).2.1
        = some q ∧
      q.status ≠ PlanStatus.executing ∧
      (q.status = PlanStatus.completed ∨ q.status = PlanStatus.failed) ∧
      (q.status = PlanStatus.completed ↔
        ∀ i, i < samplePlan.steps.length →
          (fun _ => StepOutcome.success) i = StepOutcome.success)) :=
  ⟨rfl, rfl, rfl,
   execute_plan_terminal_status "p1" 1 2 (fun _ => StepOutcome.success)
     [("p1", samplePlan)] samplePlan rfl rfl rfl⟩

/-- Claim C4.  Executing an approved plan whose steps are all `pending`
attempts the steps strictly in order and stops at the first failure: the
resulting step statuses are a prefix of `completed`, then at most one
`failed`, then only `pending`, and the number of spawned subprocesses equals
the number of steps whose status moved past `pending`. -/
theorem execute_plan_stops_at_first_failure (planId : String) (t1 t2 : Nat)
    (oracle : Nat → StepOutcome) (fs : PlanFs) (plan : ExecutionPlan)
    (hfind : loadPlan planId fs = some plan)
    (happ : plan.status = PlanStatus.approved)
    (hpend : ∀ s ∈ plan.steps, s.status = some StepStatus.pending) :
    ∃ q, (executePlan planId t1 t2 oracle fs).1 = Except.ok q ∧
      q.steps.length = plan.steps.length ∧
      goodShape (q.steps.map (fun s => s.status)) = true ∧
      (executePlan planId t1 t2 oracle fs).2.2 = countAttempted q.steps := by
  rw [executePlan_eq_of_approved planId t1 t2 oracle fs plan hfind happ]
  have h := execLoop_shape { plan with status := PlanStatus.executing, modified_at := t1 }
    oracle plan.steps []
    (savePlan { plan with status := PlanStatus.executing, modified_at := t1 } fs)
    hpend (by intro s hs; cases hs)
  simp only [List.length_nil] at h
  refine ⟨_, rfl, ?_, h.2.1, h.2.2⟩
  rw [h.1]
  simp

/-- Witness for claim C4: the spec's three-step example, where the second
subprocess fails — step 1 ends `completed`, step 2 `failed`, step 3 stays
`pending`, two subprocesses were spawned, and the plan ends `failed`. -/
theorem execute_plan_stops_at_first_failure_witness :
    loadPlan "p3" [("p3", samplePlan3)] = some samplePlan3 ∧
    samplePlan3.status = PlanStatus.approved ∧
    (∀ s ∈ samplePlan3.steps, s.status = some StepStatus.pending) ∧
    (executePlan "p3" 1 2 oracle3 [("p3", samplePlan3)]).1 = Except.ok samplePlan3Final ∧
    samplePlan3Final.steps.map (fun s => s.status) =
      [some StepStatus.completed, some StepStatus.failed, some StepStatus.pending] ∧
    samplePlan3Final.status = PlanStatus.failed ∧
    (executePlan "p3" 1 2 oracle3 [("p3", samplePlan3)]).2.2 = 2 ∧
    (∃ q, (executePlan "p3" 1 2 oracle3 [("p3", samplePlan3)]).1 = Except.ok q ∧
      q.steps.length = samplePlan3.steps.length ∧
      goodShape (q.steps.map (fun s => s.status)) = true ∧
      (executePlan "p3" 1 2 oracle3 [("p3", samplePlan3)]).2.2 = countAttempted q.steps) := by
  refine ⟨rfl, rfl, by decide, rfl, by decide, rfl, rfl, ?_⟩
  exact execute_plan_stops_at_first_failure "p3" 1 2 oracle3 [("p3", samplePlan3)]
    samplePlan3 rfl rfl (by decide)

theorem isPrefixOf_append (l r : List String) : l.isPrefixOf (l ++ r) = true := by
  induction l with
  | nil => simp [List.isPrefixOf]
  | cons a as ih => simp [List.isPrefixOf, ih]

/-- Claim C2.  Whenever `runGeminiCLI` materializes the MCP configuration
(at least one configured server), the cleanup after the call — on normal
close, spawn failure, and timeout alike — removes the whole
`<workingDirectory>/.gemini` directory, and with it every plan file stored
under `<workingDirectory>/.gemini/plans`: no plan path of that working
directory survives in the resulting file system. -/
theorem cleanup_removes_persisted_plans (names : List String) (wd : FilePath')
    (outcome : RunOutcome) (fs : List FilePath') (planId : String)
    (hnames : names ≠ []) :
    planPathOf wd planId ∉ runGeminiCLIFsEffect names wd outcome fs ∧
    configDirOf wd ∉ runGeminiCLIFsEffect names wd outcome fs := by
  have hlen : names.length > 0 := List.length_pos.mpr hnames
  have hpre : (configDirOf wd).isPrefixOf (planPathOf wd planId) = true := by
    have hsplit : planPathOf wd planId
        = configDirOf wd ++ ["plans", planId ++ ".json"] := by
      simp [planPathOf, configDirOf]
    rw [hsplit]
    exact isPrefixOf_append _ _
  have hself : (configDirOf wd).isPrefixOf (configDirOf wd) = true := by
    have h0 := isPrefixOf_append (configDirOf wd) []
    rwa [List.append_nil] at h0
  constructor
  · intro hmem
    rw [runGeminiCLIFsEffect, if_pos hlen] at hmem
    cases outcome <;>
      · simp only [cleanupGeminiConfig, rmRecursive] at hmem
        have := (List.mem_filter.mp hmem).2
        rw [hpre] at this
        simp at this
  · intro hmem
    rw [runGeminiCLIFsEffect, if_pos hlen] at hmem
    cases outcome <;>
      · simp only [cleanupGeminiConfig, rmRecursive] at hmem
        have := (List.mem_filter.mp hmem).2
        rw [hself] at this
        simp at this

/-- Witness for claim C2: one configured server, a timeout, and a plans
directory that held one plan before the call. -/
theorem cleanup_removes_persisted_plans_witness :
    (["github"] : List String) ≠ [] ∧
    planPathOf ["proj"] "p1" ∉
      runGeminiCLIFsEffect ["github"] ["proj"] RunOutcome.timedOut
        [planPathOf ["proj"] "p1"] :=
  ⟨by decide,
   (cleanup_removes_persisted_plans ["github"] ["proj"] RunOutcome.timedOut
     [planPathOf ["proj"] "p1"] "p1" (by decide)).1⟩

theorem length_validateSteps (l : List JsonValue) :
    ∀ k : Nat, (validateSteps k l).length = l.length := by
  induction l with
  | nil => intro k; rfl
  | cons v rest ih => intro k; simp [validateSteps, ih]

theorem get_validateSteps (l : List JsonValue) :
    ∀ (k i : Nat) (h : i < l.length) (h' : i < (validateSteps k l).length),
      (validateSteps k l).get ⟨i, h'⟩ = validateStep (k + i) (l.get ⟨i, h⟩) := by
  induction l with
  | nil => intro k i h h'; cases h
  | cons v rest ih =>
      intro k i h h'
      cases i with
      | zero => rfl
      | succ j =>
          have hj : j < rest.length := by simpa using Nat.lt_of_succ_lt_succ h
          have hj' : j < (validateSteps (k + 1) rest).length := by
            rw [length_validateSteps]; exact hj
          have := ih (k + 1) j hj hj'
          simpa [validateSteps, Nat.add_assoc, Nat.add_comm 1 j] using this

theorem validateStep_status (idx : Nat) (v : JsonValue) :
    (validateStep idx v).status = some StepStatus.pending := rfl

theorem validateStep_id_default (idx : Nat) (v : JsonValue)
    (h : jsMember v "id" = none) :
    (validateStep idx v).id = "step_" ++ toString (idx + 1) := by
  simp [validateStep, h, jsTruthy]

theorem validateStep_description_default (idx : Nat) (v : JsonValue)
    (h : jsMember v "description" = none) :
    (validateStep idx v).description = "Step " ++ toString (idx + 1) := by
  simp [validateStep, h, jsTruthy]

theorem validateStep_duration_default (idx : Nat) (v : JsonValue)
    (h : ∀ n : Int, jsMember v "estimated_duration" ≠ some (JsonValue.num n)) :
    (validateStep idx v).estimated_duration = some 300 := by
  have hd : jsDuration (jsMember v "estimated_duration") = 300 := by
    cases hm : jsMember v "estimated_duration" with
    | none => rfl
    | some val =>
        cases val with
        | null => rfl
        | bool b => rfl
        | num n => exact absurd hm (h n)
        | str s => rfl
        | arr xs => rfl
        | obj f => rfl
  simp [validateStep, hd]

theorem validateSteps_all_pending (l : List JsonValue) :
    ∀ (k : Nat), ∀ s ∈ validateSteps k l, s.status = some StepStatus.pending := by
  induction l with
  | nil => intro k s hs; cases hs
  | cons v rest ih =>
      intro k s hs
      rcases List.mem_cons.mp hs with hs | hs
      · subst hs; rfl
      · exact ih (k + 1) s hs

/-- Claim C6.  Plan generation fails with a surfaced error and stores
nothing when the reply has no parseable JSON object, or when the parsed
object misses `title` or `description` or its `steps` is not an array; on a
valid reply the stored plan is `draft` and each step gets its per-field
defaults — a missing id becomes `step_<1-based index>`, a missing
description becomes `Step <index>`, a missing or non-numeric
`estimated_duration` becomes `300`, and the step status is always forced to
`pending`. -/
theorem generate_plan_validation_and_defaults (planId prompt : String) (ts : Nat)
    (cfg : PlanConfiguration) (fs : PlanFs) :
    (∃ e, generatePlanWithGemini none planId ts prompt cfg fs = (Except.error e, fs)) ∧
    (∀ j, validPlanShape j = false →
      ∃ e, generatePlanWithGemini (some j) planId ts prompt cfg fs = (Except.error e, fs)) ∧
    (∀ j, validPlanShape j = true →
      ∃ p, generatePlanWithGemini (some j) planId ts prompt cfg fs
          = (Except.ok p, savePlan p fs) ∧
        p.status = PlanStatus.draft ∧ p.id = planId ∧
        p.original_prompt = some prompt ∧ p.configuration = some cfg ∧
        p.steps.length = (jsStepsArr j).length ∧
        (∀ (i : Nat) (h : i < (jsStepsArr j).length) (hp : i < p.steps.length),
          (p.steps.get ⟨i, hp⟩).status = some StepStatus.pending ∧
          (jsMember ((jsStepsArr j).get ⟨i, h⟩) "id" = none →
            (p.steps.get ⟨i, hp⟩).id = "step_" ++ toString (i + 1)) ∧
          (jsMember ((jsStepsArr j).get ⟨i, h⟩) "description" = none →
            (p.steps.get ⟨i, hp⟩).description = "Step " ++ toString (i + 1)) ∧
          ((∀ n : Int, jsMember ((jsStepsArr j).get ⟨i, h⟩) "estimated_duration"
              ≠ some (JsonValue.num n)) →
            (p.steps.get ⟨i, hp⟩).estimated_duration = some 300))) := by
  refine ⟨⟨"Failed to parse plan structure", rfl⟩, ?_, ?_⟩
  · intro j hj
    exact ⟨"Invalid plan structure: missing required fields",
      by simp [generatePlanWithGemini, generatePlanCore, hj]⟩
  · intro j hj
    refine ⟨{ id := planId, title := jsAsString (jsMember j "title"),
              description := jsAsString (jsMember j "description"),
              steps := validateSteps 0 (jsStepsArr j),
              created_at := ts, modified_at := ts, status := PlanStatus.draft,
              original_prompt := some prompt, configuration := some cfg },
            by simp [generatePlanWithGemini, generatePlanCore, hj],
            rfl, rfl, rfl, rfl, length_validateSteps _ 0, ?_⟩
    intro i h hp
    rw [get_validateSteps (jsStepsArr j) 0 i h hp, Nat.zero_add]
    exact ⟨validateStep_status i _,
           validateStep_id_default i _,
           validateStep_description_default i _,
           validateStep_duration_default i _⟩

/-- Witness for claim C6: the spec's example — prompt
"Add input validation to the signup form", mocked reply with one step that
carries only a description — yields a stored `draft` plan whose single step
has id `step_1`, default duration 300, and status `pending`. -/
theorem generate_plan_validation_and_defaults_witness :
    validPlanShape exampleReply = true ∧
    generatePlanWithGemini (some exampleReply) "plan_1" 0 examplePrompt sampleConfig []
      = (Except.ok examplePlan, savePlan examplePlan []) ∧
    examplePlan.status = PlanStatus.draft ∧
    examplePlan.steps.map (fun s => s.id) = ["step_1"] ∧
    examplePlan.steps.map (fun s => s.estimated_duration) = [some 300] ∧
    examplePlan.steps.map (fun s => s.status) = [some StepStatus.pending] ∧
    (∃ p, generatePlanWithGemini (some exampleReply) "plan_1" 0 examplePrompt
        sampleConfig [] = (Except.ok p, savePlan p []) ∧ p.status = PlanStatus.draft) := by
  refine ⟨by decide, rfl, rfl, rfl, rfl, rfl, ?_⟩
  obtain ⟨-, -, h3⟩ := generate_plan_validation_and_defaults "plan_1" examplePrompt 0
    sampleConfig []
  obtain ⟨p, heq, hdraft, -, -, -, -, -⟩ := h3 exampleReply (by decide)
  exact ⟨p, heq, hdraft⟩

/-- Claim C7, counterexample.  The claim says the substring handed to
`JSON.parse` is the first brace-delimited JSON object of the reply, even
when the prose after the object contains brace characters.  The source's
regex is greedy: on the reply `x{a}y}` it extracts `{a}y}` — from the first
left brace to the *last* right brace — not the first object `{a}`, so such
a reply is not parsed into the first object. -/
theorem extraction_not_first_object_counterexample :
    extractJson greedyReply = some [lbrace, 'a', rbrace, 'y', rbrace] ∧
    firstBraceDelimited greedyReply = some [lbrace, 'a', rbrace] ∧
    extractJson greedyReply ≠ firstBraceDelimited greedyReply := by
  refine ⟨by decide, by decide, by decide⟩

theorem dropUntilBrace_append (pre rest : List Char) (h : lbrace ∉ pre) :
    dropUntilBrace (pre ++ lbrace :: rest) = lbrace :: rest := by
  induction pre with
  | nil => simp [dropUntilBrace]
  | cons c cs ih =>
      have hc : c ≠ lbrace := fun he => h (by simp [he])
      simp only [List.cons_append, dropUntilBrace, if_neg hc]
      exact ih (fun he => h (by simp [he]))

theorem dropWhile_append_of_forall {α : Type} (p : α → Bool) (l1 l2 : List α)
    (h : ∀ x ∈ l1, p x = true) :
    List.dropWhile p (l1 ++ l2) = List.dropWhile p l2 := by
  induction l1 with
  | nil => simp
  | cons c cs ih =>
      simp only [List.cons_append, List.dropWhile, h c (by simp)]
      exact ih (fun x hx => h x (by simp [hx]))

theorem takeThroughLastRBrace_no_tail (mid post : List Char)
    (hpost : rbrace ∉ post) :
    takeThroughLastRBrace (lbrace :: (mid ++ rbrace :: post))
      = some (lbrace :: (mid ++ [rbrace])) := by
  have hrev : (lbrace :: (mid ++ rbrace :: post)).reverse
      = post.reverse ++ (rbrace :: (mid.reverse ++ [lbrace])) := by
    simp
  have hall : ∀ x ∈ post.reverse, (fun c => decide (c ≠ rbrace)) x = true := by
    intro x hx
    have hne : x ≠ rbrace := fun he => hpost (he ▸ List.mem_reverse.mp hx)
    simp [hne]
  have hdrop : (lbrace :: (mid ++ rbrace :: post)).reverse.dropWhile
      (fun c => c ≠ rbrace) = rbrace :: (mid.reverse ++ [lbrace]) := by
    rw [hrev, dropWhile_append_of_forall _ _ _ hall]
    simp [List.dropWhile]
  rw [takeThroughLastRBrace, hdrop]
  simp

/-- Claim C7, amended.  The substring handed to `JSON.parse` spans from the
first left brace of the reply to its last right brace: a reply that is one
JSON object surrounded by prose is handed over as exactly that object
provided the prose before it contains no left brace and the prose after it
contains no right brace; a right brace in the trailing prose is included in
the substring (see the counterexample), so parsing then sees more than the
first object. -/
theorem extraction_spans_to_last_rbrace (pre mid post : List Char)
    (hpre : lbrace ∉ pre) (hpost : rbrace ∉ post) :
    extractJson (pre ++ lbrace :: (mid ++ rbrace :: post))
      = some (lbrace :: (mid ++ [rbrace])) := by
  rw [extractJson, dropUntilBrace_append pre _ hpre,
    takeThroughLastRBrace_no_tail mid post hpost]

/-- Witness for the amended claim C7: the reply `x{a}y` — prose before and
after, no stray braces — is handed over as exactly `{a}`. -/
theorem extraction_spans_to_last_rbrace_witness :
    lbrace ∉ (['x'] : List Char) ∧ rbrace ∉ (['y'] : List Char) ∧
    extractJson (['x'] ++ lbrace :: (['a'] ++ rbrace :: ['y']))
      = some (lbrace :: (['a'] ++ [rbrace])) :=
  ⟨by decide, by decide,
   extraction_spans_to_last_rbrace ['x'] ['a'] ['y'] (by decide) (by decide)⟩

/-- Claim C8.  A successful `edit_plan` stores a plan whose status is forced
back to `draft` and whose steps all carry status `pending`, with title,
description, steps and `modified_at` replaced from the agent's reply, while
id, `created_at`, `original_prompt` and `configuration` are taken unchanged
from the pre-edit plan; the result overwrites the stored file of that id. -/
theorem edit_plan_resets_and_preserves (planId : String) (j : JsonValue) (now : Nat)
    (fs : PlanFs) (p : ExecutionPlan)
    (hfind : loadPlan planId fs = some p)
    (hvalid : validPlanShape j = true) :
    ∃ q, editPlanWithGemini planId (some j) now fs = (Except.ok q, savePlan q fs) ∧
      q.status = PlanStatus.draft ∧
      (∀ s ∈ q.steps, s.status = some StepStatus.pending) ∧
      q.title = jsAsString (jsMember j "title") ∧
      q.description = jsAsString (jsMember j "description") ∧
      q.steps = validateSteps 0 (jsStepsArr j) ∧
      q.modified_at = now ∧
      q.id = p.id ∧ q.created_at = p.created_at ∧
      q.original_prompt = p.original_prompt ∧ q.configuration = p.configuration ∧
      loadPlan p.id (editPlanWithGemini planId (some j) now fs).2 = some q := by
  have heq : editPlanWithGemini planId (some j) now fs =
      (Except.ok ({ p with
          title := jsAsString (jsMember j "title"),
          description := jsAsString (jsMember j "description"),
          steps := validateSteps 0 (jsStepsArr j),
          modified_at := now,
          status := PlanStatus.draft }),
       savePlan ({ p with
          title := jsAsString (jsMember j "title"),
          description := jsAsString (jsMember j "description"),
          steps := validateSteps 0 (jsStepsArr j),
          modified_at := now,
          status := PlanStatus.draft }) fs) := by
    simp [editPlanWithGemini, hfind, editPlanCore, hvalid]
  refine ⟨{ p with
      title := jsAsString (jsMember j "title"),
      description := jsAsString (jsMember j "description"),
      steps := validateSteps 0 (jsStepsArr j),
      modified_at := now,
      status := PlanStatus.draft }, heq, rfl,
    fun s hs => validateSteps_all_pending _ 0 s hs,
    rfl, rfl, rfl, rfl, rfl, rfl, rfl, rfl, ?_⟩
  rw [heq]
  exact fsFind_fsSave_self fs p.id _

/-- Witness for claim C8: editing the stored `completed` plan `richPlan`
with the example reply resets status and step statuses and keeps id,
`created_at`, `original_prompt` and `configuration`. -/
theorem edit_plan_resets_and_preserves_witness :
    loadPlan "p9" [("p9", richPlan)] = some richPlan ∧
    validPlanShape exampleReply = true ∧
    richPlan.status = PlanStatus.completed ∧
    (∃ q, editPlanWithGemini "p9" (some exampleReply) 777 [("p9", richPlan)]
        = (Except.ok q, savePlan q [("p9", richPlan)]) ∧
      q.status = PlanStatus.draft ∧
      (∀ s ∈ q.steps, s.status = some StepStatus.pending) ∧
      q.title = jsAsString (jsMember exampleReply "title") ∧
      q.description = jsAsString (jsMember exampleReply "description") ∧
      q.steps = validateSteps 0 (jsStepsArr exampleReply) ∧
      q.modified_at = 777 ∧
      q.id = richPlan.id ∧ q.created_at = richPlan.created_at ∧
      q.original_prompt = richPlan.original_prompt ∧
      q.configuration = richPlan.configuration ∧
      loadPlan richPlan.id
        (editPlanWithGemini "p9" (some exampleReply) 777 [("p9", richPlan)]).2 = some q) := by
  refine ⟨rfl, by decide, rfl, ?_⟩
  exact edit_plan_resets_and_preserves "p9" exampleReply 777 [("p9", richPlan)]
    richPlan rfl (by decide)

theorem stepStatus_roundtrip (st : StepStatus) :
    stepStatusFromString (stepStatusToString st) = some st := by
  cases st <;> rfl

theorem planStatus_roundtrip (st : PlanStatus) :
    planStatusFromString (planStatusToString st) = some st := by
  cases st <;> rfl

theorem securityMode_roundtrip (m : SecurityMode) :
    securityModeFromString (securityModeToString m) = some m := by
  cases m <;> rfl

theorem decodeStringList_roundtrip (l : List String) :
    decodeStringList (l.map JsonValue.str) = some l := by
  induction l with
  | nil => rfl
  | cons s rest ih => simp [decodeStringList, ih]

theorem step_roundtrip (s : ExecutionStep) : stepFromJson (stepToJson s) = some s := by
  obtain ⟨i, d, cmd, fl, dur, st⟩ := s
  cases cmd <;> cases fl <;> cases dur <;> cases st <;>
    simp [stepToJson, stepFromJson, optField, fsFind, decodeString, decodeOptString,
      decodeStringList_roundtrip, stepStatus_roundtrip]

theorem stepsFromJson_roundtrip (l : List ExecutionStep) :
    stepsFromJson (l.map stepToJson) = some l := by
  induction l with
  | nil => rfl
  | cons s rest ih => simp [stepsFromJson, step_roundtrip, ih]

theorem toolsConfig_roundtrip (tc : ToolsConfig) :
    toolsConfigFromJson (toolsConfigToJson tc) = some tc := by
  obtain ⟨et, sm, cp⟩ := tc
  cases et <;> cases sm <;> cases cp <;>
    simp [toolsConfigToJson, toolsConfigFromJson, optField, fsFind,
      decodeStringList_roundtrip, securityMode_roundtrip]

theorem configuration_roundtrip (c : PlanConfiguration) :
    configurationFromJson (configurationToJson c) = some c := by
  obtain ⟨m, pp, tc⟩ := c
  cases m <;> cases pp <;> cases tc <;>
    simp [configurationToJson, configurationFromJson, optField, fsFind,
      decodeOptString, toolsConfig_roundtrip]

theorem plan_roundtrip (p : ExecutionPlan) : planFromJson (planToJson p) = some p := by
  obtain ⟨i, t, d, steps, ca, ma, st, op, cfg⟩ := p
  cases op <;> cases cfg <;>
    simp [planToJson, planFromJson, optField, fsFind, decodeString, decodeOptString,
      stepsFromJson_roundtrip, planStatus_roundtrip, configuration_roundtrip]

/-- Claim C9.  Saving a plan and loading it back under the same id and
working directory yields the saved plan, through the full serialize/parse
round trip and regardless of what the store held for that id before (a save
is a full overwrite); loading an id with no file yields the not-found
result, not an error. -/
theorem save_load_roundtrip (p : ExecutionPlan) (fs : JsonFs) (missingId : String) :
    loadPlanJson p.id (savePlanJson p fs) = Except.ok (some p) ∧
    (fsFind fs missingId = none → loadPlanJson missingId fs = Except.ok none) := by
  constructor
  · simp only [savePlanJson, loadPlanJson]
    rw [fsFind_fsSave_self]
    simp [plan_roundtrip]
  · intro h; simp [loadPlanJson, h]

/-- Witness for claim C9: the plan with every optional field present
round-trips through the store even when the store already holds a stale file
for the same id, and a lookup of an absent id is the not-found result. -/
theorem save_load_roundtrip_witness :
    loadPlanJson richPlan.id
      (savePlanJson richPlan [("p9", JsonValue.null)]) = Except.ok (some richPlan) ∧
    fsFind ([("q", JsonValue.null)] : JsonFs) "p9" = none ∧
    loadPlanJson "p9" [("q", JsonValue.null)] = Except.ok none :=
  ⟨(save_load_roundtrip richPlan [("p9", JsonValue.null)] "x").1, rfl,
   (save_load_roundtrip richPlan [("q", JsonValue.null)] "p9").2 rfl⟩

/-- Claim C10, counterexample.  The claim says a plain query's argument
vector ends with the instruction without the `-p` flag and carries no
security-mode or checkpointing flags.  In the source, `query`/`continue`
invoke the same `runGeminiCLI` as plan operations: the vector always ends
with `-p` followed by the instruction — already for fully default options —
and `--yolo`/`-c` appear whenever the shared tools configuration requests
them. -/
theorem query_args_counterexample :
    queryArgs plainOpts "hi" = ["-p", "hi"] ∧
    "-p" ∈ queryArgs plainOpts "hi" ∧
    queryArgs yoloOpts "hi" = ["--yolo", "-c", "-p", "hi"] ∧
    "--yolo" ∈ queryArgs yoloOpts "hi" ∧
    "-c" ∈ queryArgs yoloOpts "hi" := by
  exact ⟨rfl, by decide, rfl, by decide, by decide⟩

theorem mem_buildArgs (opts : RunOptions) (prompt x : String) :
    x ∈ buildArgs opts prompt ↔
      ((∃ m, opts.model = some m ∧ (x = "--model" ∨ x = m)) ∨
       (securityModeOf opts = some SecurityMode.yolo ∧ x = "--yolo") ∨
       (securityModeOf opts = some SecurityMode.sandbox ∧ x = "--sandbox") ∨
       (checkpointingOf opts = some true ∧ x = "-c") ∨
       (opts.debug = true ∧ x = "--debug") ∨
       x = "-p" ∨ x = finalPromptOf opts prompt) := by
  obtain ⟨model, tc, dbg, sp⟩ := opts
  rcases tc with _ | ⟨et, sm, cp⟩
  · cases model <;> cases dbg <;>
      (simp [buildArgs, preArgs, securityModeOf, checkpointingOf] <;> tauto)
  · rcases sm with _ | sm
    · rcases cp with _ | b
      · cases model <;> cases dbg <;>
          (simp [buildArgs, preArgs, securityModeOf, checkpointingOf] <;> tauto)
      · cases b <;> cases model <;> cases dbg <;>
          (simp [buildArgs, preArgs, securityModeOf, checkpointingOf] <;> tauto)
    · cases sm <;> rcases cp with _ | b <;>
        first
        | (cases b <;> cases model <;> cases dbg <;>
            (simp [buildArgs, preArgs, securityModeOf, checkpointingOf] <;> tauto))
        | (cases model <;> cases dbg <;>
            (simp [buildArgs, preArgs, securityModeOf, checkpointingOf] <;> tauto))

/-- Claim C10, amended.  For every invocation — the plain `query`/`continue`
operations included — the instruction (prefixed by the system prompt when
one is set) is passed as the value of the `-p` flag, forming the final two
arguments of the vector, and the security-mode and checkpointing flags are
emitted exactly when the shared tools configuration requests them, for
plain and plan-aware invocations alike: each flag is in the vector if and
only if its option is set, stated for flag strings that do not
coincidentally equal the model name or the final prompt text. -/
theorem query_args_flag_layout (opts : RunOptions) (prompt : String) :
    2 ≤ (queryArgs opts prompt).length ∧
    (queryArgs opts prompt).drop ((queryArgs opts prompt).length - 2)
      = ["-p", finalPromptOf opts prompt] ∧
    (opts.model ≠ some "--yolo" → finalPromptOf opts prompt ≠ "--yolo" →
      ("--yolo" ∈ queryArgs opts prompt ↔
        securityModeOf opts = some SecurityMode.yolo)) ∧
    (opts.model ≠ some "--sandbox" → finalPromptOf opts prompt ≠ "--sandbox" →
      ("--sandbox" ∈ queryArgs opts prompt ↔
        securityModeOf opts = some SecurityMode.sandbox)) ∧
    (opts.model ≠ some "-c" → finalPromptOf opts prompt ≠ "-c" →
      ("-c" ∈ queryArgs opts prompt ↔
        checkpointingOf opts = some true)) := by
  have hsplit : queryArgs opts prompt
      = preArgs opts ++ ["-p", finalPromptOf opts prompt] := rfl
  refine ⟨?_, ?_, ?_, ?_, ?_⟩
  · rw [hsplit]; simp
  · rw [hsplit, List.length_append]
    rw [show (preArgs opts).length + (["-p", finalPromptOf opts prompt]).length - 2
        = (preArgs opts).length from by simp]
    exact List.drop_left _ _
  · intro hm hfp
    constructor
    · intro hmem
      rcases (mem_buildArgs opts prompt "--yolo").mp hmem with
        ⟨m, hm2, h3 | h3⟩ | ⟨hreq, -⟩ | ⟨-, h3⟩ | ⟨-, h3⟩ | ⟨-, h3⟩ | h3 | h3
      · exact absurd h3 (by decide)
      · subst h3; exact absurd hm2 hm
      · exact hreq
      · exact absurd h3 (by decide)
      · exact absurd h3 (by decide)
      · exact absurd h3 (by decide)
      · exact absurd h3 (by decide)
      · exact absurd h3 (fun he => hfp he.symm)
    · intro hreq
      exact (mem_buildArgs opts prompt "--yolo").mpr (Or.inr (Or.inl ⟨hreq, rfl⟩))
  · intro hm hfp
    constructor
    · intro hmem
      rcases (mem_buildArgs opts prompt "--sandbox").mp hmem with
        ⟨m, hm2, h3 | h3⟩ | ⟨-, h3⟩ | ⟨hreq, -⟩ | ⟨-, h3⟩ | ⟨-, h3⟩ | h3 | h3
      · exact absurd h3 (by decide)
      · subst h3; exact absurd hm2 hm
      · exact absurd h3 (by decide)
      · exact hreq
      · exact absurd h3 (by decide)
      · exact absurd h3 (by decide)
      · exact absurd h3 (by decide)
      · exact absurd h3 (fun he => hfp he.symm)
    · intro hreq
      exact (mem_buildArgs opts prompt "--sandbox").mpr
        (Or.inr (Or.inr (Or.inl ⟨hreq, rfl⟩)))
  · intro hm hfp
    constructor
    · intro hmem
      rcases (mem_buildArgs opts prompt "-c").mp hmem with
        ⟨m, hm2, h3 | h3⟩ | ⟨-, h3⟩ | ⟨-, h3⟩ | ⟨hreq, -⟩ | ⟨-, h3⟩ | h3 | h3
      · exact absurd h3 (by decide)
      · subst h3; exact absurd hm2 hm
      · exact absurd h3 (by decide)
      · exact absurd h3 (by decide)
      · exact hreq
      · exact absurd h3 (by decide)
      · exact absurd h3 (by decide)
      · exact absurd h3 (fun he => hfp he.symm)
    · intro hreq
      exact (mem_buildArgs opts prompt "-c").mpr
        (Or.inr (Or.inr (Or.inr (Or.inl ⟨hreq, rfl⟩))))

/-- Witness for the amended claim C10: with yolo and checkpointing
requested the flags are present, with nothing configured they are absent,
and the vector always ends `-p <instruction>`. -/
theorem query_args_flag_layout_witness :
    yoloOpts.model ≠ some "--yolo" ∧ finalPromptOf yoloOpts "hi" ≠ "--yolo" ∧
    securityModeOf yoloOpts = some SecurityMode.yolo ∧
    "--yolo" ∈ queryArgs yoloOpts "hi" ∧
    checkpointingOf yoloOpts = some true ∧
    "-c" ∈ queryArgs yoloOpts "hi" ∧
    securityModeOf plainOpts = none ∧
    "--yolo" ∉ queryArgs plainOpts "hi" ∧
    checkpointingOf plainOpts = none ∧
    "-c" ∉ queryArgs plainOpts "hi" ∧
    (queryArgs yoloOpts "hi").drop ((queryArgs yoloOpts "hi").length - 2)
      = ["-p", finalPromptOf yoloOpts "hi"] := by
  have hy := query_args_flag_layout yoloOpts "hi"
  have hp := query_args_flag_layout plainOpts "hi"
  refine ⟨by decide, by decide, rfl, ?_, rfl, ?_, rfl, ?_, rfl, ?_, hy.2.1⟩
  · exact (hy.2.2.1 (by decide) (by decide)).mpr rfl
  · exact (hy.2.2.2.2 (by decide) (by decide)).mpr rfl
  · intro hmem
    have hcontra := (hp.2.2.1 (by decide) (by decide)).mp hmem
    simp [securityModeOf, plainOpts] at hcontra
  · intro hmem
    have hcontra := (hp.2.2.2.2 (by decide) (by decide)).mp hmem
    simp [checkpointingOf, plainOpts] at hcontra

end GeminiCli
